import Mathlib

/-
Verification of the frame deduplication and text-image alignment pipeline of
the framenote video-notes service (services/multimodal_service.py and
services/ffmpeg_process.py).

Modelling conventions.
Embedding vectors are lists of rationals: the Python code works on numpy
float arrays, and every floating-point value is a rational number, so `List ℚ`
with exact arithmetic is the idealised semantics of the vector computations.
Cosine similarity (`MultimodalService.calc_similarity`) involves a square
root, so its value lives in `ℝ`; all comparisons the code performs on
similarities are mirrored by exact rational decision procedures (`simGTq`,
`pairGE`) that are proved equivalent to the corresponding real-number
comparisons (`simGTq_iff`, `pairGE_iff`).  External effects (the filesystem,
the PIL image loader, the Cohere embedding API, the ffmpeg subprocess) are
modelled as explicit oracle parameters; Python exceptions are modelled with
`Except`.  Vectors are assumed to share one dimension, as produced by a single
embedding model; `dot` truncates at the shorter list, which is never exercised.
-/

set_option maxHeartbeats 1000000

/-- Dot product of two rational vectors (`np.dot` on equal-length vectors). -/
def dot : List ℚ → List ℚ → ℚ
  | a :: as, b :: bs => a * b + dot as bs
  | _, _ => 0

/-- Squared Euclidean norm: `np.linalg.norm(v) ** 2`. -/
def sqNorm (v : List ℚ) : ℚ := dot v v

/-- Cosine similarity, `MultimodalService.calc_similarity`:
`0.0 if n1 == 0 or n2 == 0 else dot(e1, e2) / (n1 * n2)` with
`n1 = np.linalg.norm(e1)`, `n2 = np.linalg.norm(e2)`.  The guard `n1 == 0`
is expressed as `sqNorm e1 = 0`, which is equivalent since
`Real.sqrt x = 0 ↔ x = 0` for `x ≥ 0`. -/
noncomputable def calc_similarity (e1 e2 : List ℚ) : ℝ :=
  if sqNorm e1 = 0 ∨ sqNorm e2 = 0 then 0
  else (dot e1 e2 : ℝ) / (Real.sqrt (sqNorm e1) * Real.sqrt (sqNorm e2))

/-- Exact decision of `th < calc_similarity u v` by comparing squares over ℚ
(no square roots needed).  Proved correct in `simGTq_iff`.  This is the
comparison `sims.max() > self.sim_thresh` that `remove_duplicates` performs on
inner products of the L2-normalised vectors. -/
def simGTq (u v : List ℚ) (th : ℚ) : Bool :=
  if sqNorm u = 0 ∨ sqNorm v = 0 then decide (th < 0)
  else if 0 ≤ th then
    decide (0 < dot u v ∧ th ^ 2 * (sqNorm u * sqNorm v) < dot u v ^ 2)
  else
    decide (0 ≤ dot u v ∨ dot u v ^ 2 < th ^ 2 * (sqNorm u * sqNorm v))

/-- The greedy scan of `MultimodalService.remove_duplicates`: for each
candidate in input order, drop it when some already-kept vector has cosine
similarity strictly above the threshold (that is, the maximum inner product
of the normalised vectors exceeds the threshold), otherwise keep it and add
its vector to the kept set. -/
def dedupScan (th : ℚ) : List (String × List ℚ) → List (List ℚ) → List String
  | [], _ => []
  | (p, v) :: rest, kept =>
    if kept.any (fun u => simGTq u v th) then dedupScan th rest kept
    else p :: dedupScan th rest (kept ++ [v])

/-- `MultimodalService.remove_duplicates(paths, embeds)`: raises `ValueError`
on a length mismatch, returns `[]` on empty input, and otherwise runs the
greedy scan.  The numpy and FAISS branches of the source implement the same
scan (FAISS `IndexFlatIP.search` with `k = 1` returns the maximum inner
product over the kept normalised vectors). -/
def remove_duplicates (paths : List String) (embeds : List (List ℚ)) (th : ℚ) :
    Except String (List String) :=
  if paths.length ≠ embeds.length then .error "paths and embeddings length mismatch"
  else if paths.isEmpty then .ok []
  else .ok (dedupScan th (paths.zip embeds) [])

lemma dot_comm : ∀ u v : List ℚ, dot u v = dot v u
  | [], [] => rfl
  | [], _ :: _ => rfl
  | _ :: _, [] => rfl
  | a :: as, b :: bs => by
    simp only [dot, dot_comm as bs, mul_comm]

lemma sqNorm_nonneg : ∀ v : List ℚ, 0 ≤ sqNorm v
  | [] => le_refl 0
  | a :: as => by
    have h := sqNorm_nonneg as
    simp only [sqNorm, dot] at *
    exact add_nonneg (mul_self_nonneg a) h

lemma sqNorm_pos_of_ne {v : List ℚ} (h : sqNorm v ≠ 0) : 0 < sqNorm v :=
  lt_of_le_of_ne (sqNorm_nonneg v) (Ne.symm h)

lemma calc_similarity_comm (u v : List ℚ) :
    calc_similarity u v = calc_similarity v u := by
  unfold calc_similarity
  rw [dot_comm]
  by_cases h : sqNorm u = 0 ∨ sqNorm v = 0
  · rw [if_pos h, if_pos (Or.symm h)]
  · rw [if_neg h, if_neg (fun hc => h (Or.symm hc)), mul_comm]

lemma calc_similarity_zero_left {z : List ℚ} (h : sqNorm z = 0) (e : List ℚ) :
    calc_similarity z e = 0 := by
  unfold calc_similarity
  rw [if_pos (Or.inl h)]

lemma calc_similarity_zero_right {z : List ℚ} (h : sqNorm z = 0) (e : List ℚ) :
    calc_similarity e z = 0 := by
  unfold calc_similarity
  rw [if_pos (Or.inr h)]

/-- Correctness of the exact comparison: `simGTq u v th` decides
`th < calc_similarity u v`. -/
lemma simGTq_iff (u v : List ℚ) (th : ℚ) :
    simGTq u v th = true ↔ (th : ℝ) < calc_similarity u v := by
  unfold simGTq calc_similarity
  by_cases h : sqNorm u = 0 ∨ sqNorm v = 0
  · rw [if_pos h, if_pos h]
    simp only [decide_eq_true_eq]
    exact_mod_cast Iff.rfl
  · rw [if_neg h, if_neg h]
    push_neg at h
    obtain ⟨hu, hv⟩ := h
    have hau : (0 : ℝ) < (sqNorm u : ℝ) := by exact_mod_cast sqNorm_pos_of_ne hu
    have hav : (0 : ℝ) < (sqNorm v : ℝ) := by exact_mod_cast sqNorm_pos_of_ne hv
    have hA : 0 < Real.sqrt (sqNorm u) := Real.sqrt_pos.mpr hau
    have hB : 0 < Real.sqrt (sqNorm v) := Real.sqrt_pos.mpr hav
    have hAB : 0 < Real.sqrt (sqNorm u) * Real.sqrt (sqNorm v) := mul_pos hA hB
    rw [lt_div_iff hAB]
    have hsq : (Real.sqrt (sqNorm u) * Real.sqrt (sqNorm v)) ^ 2
        = (sqNorm u : ℝ) * (sqNorm v : ℝ) := by
      rw [mul_pow, Real.sq_sqrt hau.le, Real.sq_sqrt hav.le]
    by_cases hth : 0 ≤ th
    · rw [if_pos hth]
      simp only [decide_eq_true_eq]
      constructor
      · rintro ⟨hdpos, hlt⟩
        have hdpos' : (0 : ℝ) < (dot u v : ℝ) := by exact_mod_cast hdpos
        have hlt' : ((th : ℝ) * (Real.sqrt (sqNorm u) * Real.sqrt (sqNorm v))) ^ 2
            < ((dot u v : ℝ)) ^ 2 := by
          rw [mul_pow, hsq]
          exact_mod_cast hlt
        exact lt_of_pow_lt_pow_left 2 hdpos'.le hlt'
      · intro hlt
        have hth' : (0 : ℝ) ≤ (th : ℝ) := by exact_mod_cast hth
        have h0 : (0 : ℝ) ≤ (th : ℝ) * (Real.sqrt (sqNorm u) * Real.sqrt (sqNorm v)) :=
          mul_nonneg hth' hAB.le
        have hdpos' : (0 : ℝ) < (dot u v : ℝ) := lt_of_le_of_lt h0 hlt
        have hsqlt : ((th : ℝ) * (Real.sqrt (sqNorm u) * Real.sqrt (sqNorm v))) ^ 2
            < ((dot u v : ℝ)) ^ 2 := pow_lt_pow_left hlt h0 (by norm_num)
        rw [mul_pow, hsq] at hsqlt
        constructor
        · exact_mod_cast hdpos'
        · exact_mod_cast hsqlt
    · rw [if_neg hth]
      push_neg at hth
      have hth' : (th : ℝ) < 0 := by exact_mod_cast hth
      have hneg : (th : ℝ) * (Real.sqrt (sqNorm u) * Real.sqrt (sqNorm v)) < 0 :=
        mul_neg_of_neg_of_pos hth' hAB
      simp only [decide_eq_true_eq]
      constructor
      · rintro (hd | hd)
        · have : (0 : ℝ) ≤ (dot u v : ℝ) := by exact_mod_cast hd
          exact lt_of_lt_of_le hneg this
        · have hd' : ((dot u v : ℝ)) ^ 2
              < ((-th : ℝ) * (Real.sqrt (sqNorm u) * Real.sqrt (sqNorm v))) ^ 2 := by
            rw [mul_pow, hsq, neg_sq]
            exact_mod_cast hd
          have habs : (-(dot u v : ℝ)) ^ 2
              < ((-th : ℝ) * (Real.sqrt (sqNorm u) * Real.sqrt (sqNorm v))) ^ 2 := by
            rw [neg_pow]
            simpa using hd'
          by_cases hdn : (0 : ℝ) ≤ (dot u v : ℝ)
          · exact lt_of_lt_of_le hneg hdn
          · push_neg at hdn
            have := lt_of_pow_lt_pow_left 2
              (by nlinarith : (0 : ℝ) ≤ (-th : ℝ) * (Real.sqrt (sqNorm u) * Real.sqrt (sqNorm v)))
              habs
            linarith
      · intro hlt
        by_cases hd : (0 : ℚ) ≤ dot u v
        · exact Or.inl hd
        · push_neg at hd
          right
          have hd' : (dot u v : ℝ) < 0 := by exact_mod_cast hd
          have h1 : -(dot u v : ℝ)
              < (-th : ℝ) * (Real.sqrt (sqNorm u) * Real.sqrt (sqNorm v)) := by linarith
          have h2 : (-(dot u v : ℝ)) ^ 2
              < ((-th : ℝ) * (Real.sqrt (sqNorm u) * Real.sqrt (sqNorm v))) ^ 2 :=
            pow_lt_pow_left h1 (by linarith) (by norm_num)
          rw [mul_pow, hsq, neg_pow, neg_pow] at h2
          simp only [neg_neg, one_mul, neg_one_sq] at h2
          have h2' : ((dot u v : ℝ)) ^ 2 < (th : ℝ) ^ 2 * ((sqNorm u : ℝ) * (sqNorm v : ℝ)) := by
            nlinarith [h2]
          exact_mod_cast h2'

/-- The exact comparison is `false` exactly when the cosine similarity is at
or below the threshold. -/
lemma simGTq_false_iff (u v : List ℚ) (th : ℚ) :
    simGTq u v th = false ↔ calc_similarity u v ≤ (th : ℝ) := by
  rw [← not_lt, ← simGTq_iff]
  cases h : simGTq u v th <;> simp [h]

/-- Clamp a squared norm to a positive value.  Every second component fed to
`pairGE` is a positive squared norm (`simPair_snd_pos`); clamping nonpositive
garbage to `1` merely makes the comparison a total preorder on all of `ℚ × ℚ`. -/
def posClamp (b : ℚ) : ℚ := if b ≤ 0 then 1 else b

lemma posClamp_pos (b : ℚ) : 0 < posClamp b := by
  unfold posClamp
  split
  · norm_num
  · linarith [not_le.mp (by assumption : ¬ b ≤ 0)]

lemma posClamp_of_pos {b : ℚ} (h : 0 < b) : posClamp b = b := if_neg (not_le.mpr h)

/-- Exact decision of `q.1 / √q.2 ≤ p.1 / √p.2` over ℚ, the comparison by
which `align_frames_with_text` ranks frames (`key=lambda i: sims[i],
reverse=True`).  Proved correct in `pairGE_iff`. -/
def pairGE (p q : ℚ × ℚ) : Bool :=
  if 0 ≤ p.1 then
    if q.1 ≤ 0 then true
    else decide (q.1 ^ 2 * posClamp p.2 ≤ p.1 ^ 2 * posClamp q.2)
  else
    if 0 ≤ q.1 then false
    else decide (p.1 ^ 2 * posClamp q.2 ≤ q.1 ^ 2 * posClamp p.2)

lemma pairGE_iff (p q : ℚ × ℚ) :
    pairGE p q = true ↔
      (q.1 : ℝ) / Real.sqrt (posClamp q.2) ≤ (p.1 : ℝ) / Real.sqrt (posClamp p.2) := by
  have hp2 : (0 : ℝ) < (posClamp p.2 : ℝ) := by exact_mod_cast posClamp_pos p.2
  have hq2 : (0 : ℝ) < (posClamp q.2 : ℝ) := by exact_mod_cast posClamp_pos q.2
  have hA : 0 < Real.sqrt (posClamp p.2) := Real.sqrt_pos.mpr hp2
  have hB : 0 < Real.sqrt (posClamp q.2) := Real.sqrt_pos.mpr hq2
  have hA2 : (Real.sqrt (posClamp p.2)) ^ 2 = (posClamp p.2 : ℝ) := Real.sq_sqrt hp2.le
  have hB2 : (Real.sqrt (posClamp q.2)) ^ 2 = (posClamp q.2 : ℝ) := Real.sq_sqrt hq2.le
  rw [div_le_div_iff hB hA]
  unfold pairGE
  by_cases hp1 : 0 ≤ p.1
  · rw [if_pos hp1]
    have hp1' : (0 : ℝ) ≤ (p.1 : ℝ) := by exact_mod_cast hp1
    by_cases hq1 : q.1 ≤ 0
    · rw [if_pos hq1]
      have hq1' : (q.1 : ℝ) ≤ 0 := by exact_mod_cast hq1
      simp only [true_iff]
      exact le_trans (mul_nonpos_of_nonpos_of_nonneg hq1' hA.le)
        (mul_nonneg hp1' hB.le)
    · rw [if_neg hq1]
      push_neg at hq1
      have hq1' : (0 : ℝ) < (q.1 : ℝ) := by exact_mod_cast hq1
      simp only [decide_eq_true_eq]
      constructor
      · intro hle
        have hle' : ((q.1 : ℝ) * Real.sqrt (posClamp p.2)) ^ 2
            ≤ ((p.1 : ℝ) * Real.sqrt (posClamp q.2)) ^ 2 := by
          rw [mul_pow, mul_pow, hA2, hB2]
          exact_mod_cast hle
        exact le_of_pow_le_pow_left (by norm_num) (mul_nonneg hp1' hB.le) hle'
      · intro hle
        have hle' : ((q.1 : ℝ) * Real.sqrt (posClamp p.2)) ^ 2
            ≤ ((p.1 : ℝ) * Real.sqrt (posClamp q.2)) ^ 2 :=
          pow_le_pow_left (mul_nonneg hq1'.le hA.le) hle 2
        rw [mul_pow, mul_pow, hA2, hB2] at hle'
        exact_mod_cast hle'
  · rw [if_neg hp1]
    push_neg at hp1
    have hp1' : (p.1 : ℝ) < 0 := by exact_mod_cast hp1
    by_cases hq1 : 0 ≤ q.1
    · rw [if_pos hq1]
      have hq1' : (0 : ℝ) ≤ (q.1 : ℝ) := by exact_mod_cast hq1
      simp only [Bool.false_eq_true, false_iff, not_le]
      exact lt_of_lt_of_le (mul_neg_of_neg_of_pos hp1' hB)
        (mul_nonneg hq1' hA.le)
    · rw [if_neg hq1]
      push_neg at hq1
      have hq1' : (q.1 : ℝ) < 0 := by exact_mod_cast hq1
      simp only [decide_eq_true_eq]
      constructor
      · intro hle
        have hle' : (-(p.1 : ℝ) * Real.sqrt (posClamp q.2)) ^ 2
            ≤ (-(q.1 : ℝ) * Real.sqrt (posClamp p.2)) ^ 2 := by
          rw [mul_pow, mul_pow, hA2, hB2, neg_sq, neg_sq]
          exact_mod_cast hle
        have := le_of_pow_le_pow_left (by norm_num)
          (mul_nonneg (by linarith : (0 : ℝ) ≤ -(q.1 : ℝ)) hA.le) hle'
        nlinarith [this]
      · intro hle
        have h1 : -(p.1 : ℝ) * Real.sqrt (posClamp q.2)
            ≤ -(q.1 : ℝ) * Real.sqrt (posClamp p.2) := by nlinarith [hle]
        have h2 : (-(p.1 : ℝ) * Real.sqrt (posClamp q.2)) ^ 2
            ≤ (-(q.1 : ℝ) * Real.sqrt (posClamp p.2)) ^ 2 :=
          pow_le_pow_left (mul_nonneg (by linarith : (0 : ℝ) ≤ -(p.1 : ℝ)) hB.le) h1 2
        rw [mul_pow, mul_pow, hA2, hB2, neg_sq, neg_sq] at h2
        exact_mod_cast h2

/-- Pair representation of the similarity value `calc_similarity t v`:
value = `fst / √snd`, with `snd` always positive. -/
def simPair (t v : List ℚ) : ℚ × ℚ :=
  if sqNorm t = 0 ∨ sqNorm v = 0 then (0, 1) else (dot t v, sqNorm t * sqNorm v)

lemma simPair_snd_pos (t v : List ℚ) : 0 < (simPair t v).2 := by
  unfold simPair
  split
  · norm_num
  · next h =>
    push_neg at h
    exact mul_pos (sqNorm_pos_of_ne h.1) (sqNorm_pos_of_ne h.2)

lemma simPair_val (t v : List ℚ) :
    ((simPair t v).1 : ℝ) / Real.sqrt (posClamp (simPair t v).2) = calc_similarity t v := by
  unfold simPair calc_similarity
  by_cases h : sqNorm t = 0 ∨ sqNorm v = 0
  · rw [if_pos h, if_pos h]
    norm_num
  · rw [if_neg h, if_neg h]
    push_neg at h
    have h1 : (0 : ℚ) < sqNorm t * sqNorm v :=
      mul_pos (sqNorm_pos_of_ne h.1) (sqNorm_pos_of_ne h.2)
    have h2 : posClamp (sqNorm t * sqNorm v) = sqNorm t * sqNorm v := posClamp_of_pos h1
    simp only [h2]
    have h3 : ((sqNorm t * sqNorm v : ℚ) : ℝ) = (sqNorm t : ℝ) * (sqNorm v : ℝ) := by
      push_cast
      ring
    rw [h3, Real.sqrt_mul (by exact_mod_cast sqNorm_nonneg t)]

/-- Ranking two frames by `pairGE` of their similarity pairs is exactly
comparing their cosine similarities to the text vector. -/
lemma pairGE_simPair_iff (t u v : List ℚ) :
    pairGE (simPair t u) (simPair t v) = true ↔
      calc_similarity t v ≤ calc_similarity t u := by
  rw [pairGE_iff, simPair_val, simPair_val]

/-- The ordering used to sort `(similarity pair, path)` entries: descending by
similarity.  Mirrors `sorted(range(len(sims)), key=lambda i: sims[i],
reverse=True)`, which is a stable descending sort. -/
def simOrd (a b : (ℚ × ℚ) × String) : Prop := pairGE a.1 b.1 = true

instance : DecidableRel simOrd :=
  fun a b => inferInstanceAs (Decidable (pairGE a.1 b.1 = true))

instance : IsTotal ((ℚ × ℚ) × String) simOrd := by
  constructor
  intro a b
  unfold simOrd
  rw [pairGE_iff, pairGE_iff]
  exact le_total _ _

instance : IsTrans ((ℚ × ℚ) × String) simOrd := by
  constructor
  intro a b c hab hbc
  unfold simOrd at *
  rw [pairGE_iff] at *
  exact le_trans hbc hab

/-- Real-valued dot product, for stating fidelity of the normalised scan. -/
noncomputable def dotR : List ℝ → List ℝ → ℝ
  | a :: as, b :: bs => a * b + dotR as bs
  | _, _ => 0

/-- L2 normalisation as performed by `remove_duplicates`:
`e / np.linalg.norm(e) if np.linalg.norm(e) > 0 else e`. -/
noncomputable def l2normalize (v : List ℚ) : List ℝ :=
  if sqNorm v = 0 then v.map (fun x : ℚ => (x : ℝ))
  else v.map (fun x : ℚ => (x : ℝ) / Real.sqrt (sqNorm v))

lemma dotR_map_div : ∀ (u v : List ℚ) (A B : ℝ),
    dotR (u.map fun x : ℚ => (x : ℝ) / A) (v.map fun x : ℚ => (x : ℝ) / B)
      = (dot u v : ℝ) / (A * B)
  | [], [], A, B => by simp [dotR, dot]
  | [], _ :: _, A, B => by simp [dotR, dot]
  | _ :: _, [], A, B => by simp [dotR, dot]
  | a :: as, b :: bs, A, B => by
    rw [List.map_cons, List.map_cons]
    show (a : ℝ) / A * ((b : ℝ) / B)
        + dotR (as.map fun x : ℚ => (x : ℝ) / A) (bs.map fun x : ℚ => (x : ℝ) / B)
      = ((dot (a :: as) (b :: bs) : ℚ) : ℝ) / (A * B)
    rw [dotR_map_div as bs A B, div_mul_div_comm, div_add_div_same]
    show ((a : ℝ) * (b : ℝ) + (dot as bs : ℝ)) / (A * B)
      = ((a * b + dot as bs : ℚ) : ℝ) / (A * B)
    push_cast
    ring_nf

lemma entries_zero_of_sqNorm_zero : ∀ {v : List ℚ}, sqNorm v = 0 → ∀ x ∈ v, x = 0
  | [], _, x, hx => absurd hx (List.not_mem_nil x)
  | a :: as, h, x, hx => by
    have h' : a * a + sqNorm as = 0 := h
    have h1 : a * a = 0 ∧ sqNorm as = 0 := by
      constructor
      · nlinarith [sqNorm_nonneg as, mul_self_nonneg a]
      · nlinarith [sqNorm_nonneg as, mul_self_nonneg a]
    rcases List.mem_cons.mp hx with rfl | hx'
    · exact mul_self_eq_zero.mp h1.1
    · exact entries_zero_of_sqNorm_zero h1.2 x hx'

lemma dotR_zero_left : ∀ (u : List ℚ) (w : List ℝ), (∀ x ∈ u, x = 0) →
    dotR (u.map fun x : ℚ => (x : ℝ)) w = 0
  | [], w, _ => by cases w <;> simp [dotR]
  | a :: as, [], _ => by simp [dotR]
  | a :: as, b :: bs, h => by
    have ha : a = 0 := h a (List.mem_cons_self a as)
    have ih := dotR_zero_left as bs (fun x hx => h x (List.mem_cons_of_mem a hx))
    rw [List.map_cons]
    show (a : ℝ) * b + dotR (as.map fun x : ℚ => (x : ℝ)) bs = 0
    rw [ha, ih]
    norm_num

lemma dotR_zero_right : ∀ (w : List ℝ) (v : List ℚ), (∀ x ∈ v, x = 0) →
    dotR w (v.map fun x : ℚ => (x : ℝ)) = 0
  | w, [], _ => by cases w <;> simp [dotR]
  | [], a :: as, _ => by simp [dotR]
  | b :: bs, a :: as, h => by
    have ha : a = 0 := h a (List.mem_cons_self a as)
    have ih := dotR_zero_right bs as (fun x hx => h x (List.mem_cons_of_mem a hx))
    rw [List.map_cons]
    show b * (a : ℝ) + dotR bs (as.map fun x : ℚ => (x : ℝ)) = 0
    rw [ha, ih]
    norm_num

/-- Fidelity of the scan comparison: the inner product of the L2-normalised
vectors (what the numpy/FAISS branches of `remove_duplicates` compare against
the threshold) is exactly `calc_similarity`. -/
lemma dotR_l2normalize (u v : List ℚ) :
    dotR (l2normalize u) (l2normalize v) = calc_similarity u v := by
  unfold l2normalize calc_similarity
  by_cases hu : sqNorm u = 0
  · rw [if_pos hu, if_pos (Or.inl hu)]
    exact dotR_zero_left u _ (entries_zero_of_sqNorm_zero hu)
  · by_cases hv : sqNorm v = 0
    · rw [if_neg hu, if_pos hv, if_pos (Or.inr hv)]
      exact dotR_zero_right _ v (entries_zero_of_sqNorm_zero hv)
    · rw [if_neg hu, if_neg hv, if_neg (by push_neg; exact ⟨hu, hv⟩)]
      exact dotR_map_div u v _ _

lemma dedupScan_sublist (th : ℚ) (l : List (String × List ℚ)) :
    ∀ kept, (dedupScan th l kept).Sublist (l.map Prod.fst) := by
  induction l with
  | nil => intro kept; simp [dedupScan]
  | cons pv rest ih =>
    intro kept
    obtain ⟨p, v⟩ := pv
    simp only [dedupScan, List.map]
    split
    · exact (ih kept).cons p
    · exact (ih (kept ++ [v])).cons₂ p

/-- If each kept vector is at-or-below threshold against every candidate and
the candidates are pairwise at-or-below threshold, the scan keeps everything. -/
lemma dedupScan_all_kept (th : ℚ) (l : List (String × List ℚ)) :
    ∀ kept, (∀ u ∈ kept, ∀ pv ∈ l, simGTq u pv.2 th = false) →
      l.Pairwise (fun a b => simGTq a.2 b.2 th = false) →
      dedupScan th l kept = l.map Prod.fst := by
  induction l with
  | nil => intro kept _ _; simp [dedupScan]
  | cons pv rest ih =>
    intro kept hkept hpair
    obtain ⟨p, v⟩ := pv
    have hany : kept.any (fun u => simGTq u v th) = false := by
      rw [List.any_eq_false]
      intro u hu
      simp only [Bool.not_eq_true]
      exact hkept u hu (p, v) (List.mem_cons_self _ _)
    simp only [dedupScan, hany, Bool.false_eq_true, if_false, List.map]
    congr 1
    apply ih (kept ++ [v])
    · intro u hu pv' hpv'
      rcases List.mem_append.mp hu with hu' | hu'
      · exact hkept u hu' pv' (List.mem_cons_of_mem _ hpv')
      · have : u = v := by simpa using hu'
        subst this
        exact (List.pairwise_cons.mp hpair).1 pv' hpv'
    · exact (List.pairwise_cons.mp hpair).2

lemma simGTq_zero_left {z : List ℚ} (hz : sqNorm z = 0) {th : ℚ} (hth : 0 ≤ th)
    (v : List ℚ) : simGTq z v th = false := by
  unfold simGTq
  rw [if_pos (Or.inl hz)]
  simp only [decide_eq_false_iff_not, not_lt]
  exact hth

lemma simGTq_zero_right {z : List ℚ} (hz : sqNorm z = 0) {th : ℚ} (hth : 0 ≤ th)
    (u : List ℚ) : simGTq u z th = false := by
  unfold simGTq
  rw [if_pos (Or.inr hz)]
  simp only [decide_eq_false_iff_not, not_lt]
  exact hth

/-- A zero-norm vector sitting anywhere in the kept set never influences any
later keep/drop decision. -/
lemma dedupScan_zero_inert {z : List ℚ} (hz : sqNorm z = 0) {th : ℚ} (hth : 0 ≤ th)
    (l : List (String × List ℚ)) :
    ∀ k₁ k₂, dedupScan th l (k₁ ++ z :: k₂) = dedupScan th l (k₁ ++ k₂) := by
  induction l with
  | nil => intro k₁ k₂; simp [dedupScan]
  | cons pv rest ih =>
    intro k₁ k₂
    obtain ⟨p, v⟩ := pv
    have hany : (k₁ ++ z :: k₂).any (fun u => simGTq u v th)
        = (k₁ ++ k₂).any (fun u => simGTq u v th) := by
      simp [List.any_append, List.any_cons, simGTq_zero_left hz hth v]
    simp only [dedupScan, hany]
    split
    · exact ih k₁ k₂
    · have h1 : (k₁ ++ z :: k₂) ++ [v] = k₁ ++ z :: (k₂ ++ [v]) := by simp
      have h2 : (k₁ ++ k₂) ++ [v] = k₁ ++ (k₂ ++ [v]) := by simp
      rw [h1, h2]
      exact congrArg _ (ih k₁ (k₂ ++ [v]))

lemma calc_similarity_of_unit {u v : List ℚ} (hu : sqNorm u = 1) (hv : sqNorm v = 1) :
    calc_similarity u v = (dot u v : ℝ) := by
  unfold calc_similarity
  rw [if_neg (by rw [hu, hv]; norm_num), hu, hv]
  norm_num

/-- A zero-norm candidate at the head of the scan is always kept and its
vector never influences any later decision. -/
lemma dedupScan_zero_head {z : List ℚ} (hz : sqNorm z = 0) {th : ℚ} (hth : 0 ≤ th)
    (pz : String) (rest : List (String × List ℚ)) (kept : List (List ℚ)) :
    dedupScan th ((pz, z) :: rest) kept = pz :: dedupScan th rest kept := by
  have hany : kept.any (fun u => simGTq u z th) = false := by
    rw [List.any_eq_false]
    intro u hu
    simp [simGTq_zero_right hz hth u]
  simp only [dedupScan, hany, Bool.false_eq_true, if_false]
  congr 1
  have h := dedupScan_zero_inert hz hth rest kept []
  simpa using h

/-- C2: for every list of paths and equal-length list of vectors, the list
returned by `remove_duplicates` is an order-preserving subsequence of the
input paths, its length is at most the input length, and removed + kept =
input length. -/
theorem C2_kept_subsequence (paths : List String) (embeds : List (List ℚ)) (th : ℚ)
    (h : paths.length = embeds.length) :
    ∃ r, remove_duplicates paths embeds th = .ok r ∧ r.Sublist paths ∧
      r.length ≤ paths.length ∧
      (paths.length - r.length) + r.length = paths.length := by
  unfold remove_duplicates
  rw [if_neg (by simp [h])]
  by_cases hp : paths.isEmpty
  · rw [if_pos hp]
    have hnil : paths = [] := List.isEmpty_iff.mp hp
    subst hnil
    exact ⟨[], rfl, List.Sublist.refl [], le_refl 0, rfl⟩
  · rw [if_neg hp]
    refine ⟨dedupScan th (paths.zip embeds) [], rfl, ?_, ?_, ?_⟩
    · have hs := dedupScan_sublist th (paths.zip embeds) []
      rwa [List.map_fst_zip _ _ (le_of_eq h)] at hs
    · have hs := dedupScan_sublist th (paths.zip embeds) []
      rw [List.map_fst_zip _ _ (le_of_eq h)] at hs
      exact hs.length_le
    · have hs := dedupScan_sublist th (paths.zip embeds) []
      rw [List.map_fst_zip _ _ (le_of_eq h)] at hs
      exact Nat.sub_add_cancel hs.length_le

theorem C2_kept_subsequence_witness :
    ["a", "b"].length = [[(1 : ℚ)], [1]].length ∧
    (∃ r, remove_duplicates ["a", "b"] [[(1 : ℚ)], [1]] (9/10) = .ok r ∧
      r.Sublist ["a", "b"] ∧ r.length ≤ ["a", "b"].length ∧
      (["a", "b"].length - r.length) + r.length = ["a", "b"].length) :=
  ⟨rfl, C2_kept_subsequence ["a", "b"] [[(1 : ℚ)], [1]] (9/10) rfl⟩

/-- C5: `remove_duplicates` is idempotent on deduplicated input: if all
pairwise cosine similarities are at or below the threshold, the whole input
is returned unchanged. -/
theorem C5_dedup_idempotent (paths : List String) (embeds : List (List ℚ)) (th : ℚ)
    (hlen : paths.length = embeds.length)
    (hp : embeds.Pairwise (fun u v => calc_similarity u v ≤ (th : ℝ))) :
    remove_duplicates paths embeds th = .ok paths := by
  unfold remove_duplicates
  rw [if_neg (by simp [hlen])]
  by_cases he : paths.isEmpty
  · rw [if_pos he, List.isEmpty_iff.mp he]
  · rw [if_neg he]
    have hzip_snd : (paths.zip embeds).map Prod.snd = embeds :=
      List.map_snd_zip _ _ (le_of_eq hlen.symm)
    have hp' : (paths.zip embeds).Pairwise (fun a b => simGTq a.2 b.2 th = false) := by
      have h1 : (paths.zip embeds).Pairwise
          (fun a b => calc_similarity a.2 b.2 ≤ (th : ℝ)) := by
        have h2 := hp
        rw [← hzip_snd] at h2
        exact List.pairwise_map.mp h2
      exact h1.imp (fun hab => (simGTq_false_iff _ _ _).mpr hab)
    rw [dedupScan_all_kept th _ []
        (fun u hu => absurd hu (List.not_mem_nil u)) hp',
      List.map_fst_zip _ _ (le_of_eq hlen)]

theorem C5_dedup_idempotent_witness :
    ["a", "b"].length = [[(1 : ℚ), 0], [0, 1]].length ∧
    List.Pairwise (fun u v => calc_similarity u v ≤ ((9/10 : ℚ) : ℝ))
      [[(1 : ℚ), 0], [0, 1]] ∧
    remove_duplicates ["a", "b"] [[(1 : ℚ), 0], [0, 1]] (9/10) = .ok ["a", "b"] := by
  have hpw : List.Pairwise (fun u v => calc_similarity u v ≤ ((9/10 : ℚ) : ℝ))
      [[(1 : ℚ), 0], [0, 1]] := by
    refine List.pairwise_cons.mpr ⟨?_, List.pairwise_singleton _ _⟩
    intro b hb
    have hb' : b = [(0 : ℚ), 1] := by simpa using hb
    subst hb'
    rw [calc_similarity_of_unit (by norm_num [sqNorm, dot]) (by norm_num [sqNorm, dot])]
    have hd : dot [(1 : ℚ), 0] [0, 1] = 0 := by norm_num [dot]
    rw [hd]
    norm_num
  exact ⟨rfl, hpw, C5_dedup_idempotent _ _ _ rfl hpw⟩

/-- C6: a zero-norm embedding has similarity 0 against everything
(`calc_similarity`); in `remove_duplicates` a zero-norm candidate is never
discarded (its maximum inner product against the kept vectors is 0, below the
positive threshold) and never causes any later candidate to be discarded. -/
theorem C6_zero_norm_neutral (z : List ℚ) (hz : sqNorm z = 0) (th : ℚ) (hth : 0 < th) :
    (∀ e, calc_similarity z e = 0 ∧ calc_similarity e z = 0)
    ∧ (∀ (pz : String) (rest : List (String × List ℚ)) (kept : List (List ℚ)),
        dedupScan th ((pz, z) :: rest) kept = pz :: dedupScan th rest kept)
    ∧ (∀ (pz : String) (ps : List String) (es : List (List ℚ)),
        ps.length = es.length →
        remove_duplicates (pz :: ps) (z :: es) th
          = .ok (pz :: dedupScan th (ps.zip es) [])) := by
  refine ⟨fun e => ⟨calc_similarity_zero_left hz e, calc_similarity_zero_right hz e⟩,
    fun pz rest kept => dedupScan_zero_head hz hth.le pz rest kept, ?_⟩
  intro pz ps es hlen
  unfold remove_duplicates
  rw [if_neg (by simp [hlen]), if_neg (by simp)]
  rw [List.zip_cons_cons, dedupScan_zero_head hz hth.le]

theorem C6_zero_norm_neutral_witness :
    sqNorm [(0 : ℚ), 0] = 0 ∧ (0 : ℚ) < 9/10 ∧
    calc_similarity [(0 : ℚ), 0] [1, 0] = 0 ∧
    dedupScan (9/10) [("a", [(0 : ℚ), 0]), ("b", [1, 0])] []
      = "a" :: dedupScan (9/10) [("b", [(1 : ℚ), 0])] [] ∧
    remove_duplicates ["a", "b"] [[(0 : ℚ), 0], [1, 0]] (9/10)
      = .ok ("a" :: dedupScan (9/10) (["b"].zip [[(1 : ℚ), 0]]) []) := by
  have h := C6_zero_norm_neutral [(0 : ℚ), 0] (by norm_num [sqNorm, dot]) (9/10) (by norm_num)
  exact ⟨by norm_num [sqNorm, dot], by norm_num, (h.1 [1, 0]).1,
    h.2.1 "a" [("b", [1, 0])] [], h.2.2 "a" ["b"] [[1, 0]] rfl⟩

/-- C1 (amended): the dedup scenario with 5 frames `[v, v, w, x, x]`.  The
claim's hypotheses (v-pair and x-pair above threshold, `w` below threshold
against the others) must be strengthened with `v` and `x` being at or below
threshold of each other; without that the kept set is `[0, 2]`
(see the counterexample).  With it, the kept result is exactly the paths at
indices `[0, 2, 3]`. -/
theorem C1_dedup_scenario_amended (p0 p1 p2 p3 p4 : String) (v w x : List ℚ)
    (hvv : ((9/10 : ℚ) : ℝ) < calc_similarity v v)
    (hxx : ((9/10 : ℚ) : ℝ) < calc_similarity x x)
    (hwv : calc_similarity w v ≤ ((9/10 : ℚ) : ℝ))
    (hwx : calc_similarity w x ≤ ((9/10 : ℚ) : ℝ))
    (hvx : calc_similarity v x ≤ ((9/10 : ℚ) : ℝ)) :
    remove_duplicates [p0, p1, p2, p3, p4] [v, v, w, x, x] (9/10)
      = .ok [p0, p2, p3] := by
  have bvv : simGTq v v (9/10) = true := (simGTq_iff _ _ _).mpr hvv
  have bxx : simGTq x x (9/10) = true := (simGTq_iff _ _ _).mpr hxx
  have bvw : simGTq v w (9/10) = false := (simGTq_false_iff _ _ _).mpr
    (by rw [calc_similarity_comm]; exact hwv)
  have bvx : simGTq v x (9/10) = false := (simGTq_false_iff _ _ _).mpr hvx
  have bwx : simGTq w x (9/10) = false := (simGTq_false_iff _ _ _).mpr hwx
  unfold remove_duplicates
  rw [if_neg (by simp), if_neg (by simp)]
  simp [List.zip_cons_cons, dedupScan, bvv, bxx, bvw, bvx, bwx]

/-- C1 as stated is false: its hypotheses do not constrain the similarity
between `v` and `x`.  Taking `v = x = [1, 0]` and `w = [0, 1]` satisfies
every stated hypothesis (the two v's and the two x's are above threshold 0.9
and `w` is below threshold against all others), yet the kept result is the
paths at indices `[0, 2]`, not `[0, 2, 3]`: the frame at index 3 is dropped
as a duplicate of the kept `v`. -/
theorem C1_dedup_scenario_counterexample :
    (((9/10 : ℚ) : ℝ) < calc_similarity [(1 : ℚ), 0] [1, 0])
    ∧ (calc_similarity [(0 : ℚ), 1] [1, 0] ≤ ((9/10 : ℚ) : ℝ))
    ∧ remove_duplicates ["f0", "f1", "f2", "f3", "f4"]
        [[(1 : ℚ), 0], [1, 0], [0, 1], [1, 0], [1, 0]] (9/10) = .ok ["f0", "f2"]
    ∧ (Except.ok ["f0", "f2"]
        ≠ (Except.ok ["f0", "f2", "f3"] : Except String (List String))) := by
  have hu : sqNorm [(1 : ℚ), 0] = 1 := by norm_num [sqNorm, dot]
  have hw : sqNorm [(0 : ℚ), 1] = 1 := by norm_num [sqNorm, dot]
  have h1 : ((9/10 : ℚ) : ℝ) < calc_similarity [(1 : ℚ), 0] [1, 0] := by
    rw [calc_similarity_of_unit hu hu]
    have hd : dot [(1 : ℚ), 0] [1, 0] = 1 := by norm_num [dot]
    rw [hd]
    norm_num
  have h2 : calc_similarity [(0 : ℚ), 1] [1, 0] ≤ ((9/10 : ℚ) : ℝ) := by
    rw [calc_similarity_of_unit hw hu]
    have hd : dot [(0 : ℚ), 1] [1, 0] = 0 := by norm_num [dot]
    rw [hd]
    norm_num
  have bvv : simGTq [(1 : ℚ), 0] [1, 0] (9/10) = true := (simGTq_iff _ _ _).mpr h1
  have bvw : simGTq [(1 : ℚ), 0] [0, 1] (9/10) = false := (simGTq_false_iff _ _ _).mpr
    (by rw [calc_similarity_comm]; exact h2)
  have bwv : simGTq [(0 : ℚ), 1] [1, 0] (9/10) = false := (simGTq_false_iff _ _ _).mpr h2
  refine ⟨h1, h2, ?_, by simp⟩
  unfold remove_duplicates
  rw [if_neg (by simp), if_neg (by simp)]
  simp [List.zip_cons_cons, dedupScan, bvv, bvw, bwv]

theorem C1_dedup_scenario_witness :
    (((9/10 : ℚ) : ℝ) < calc_similarity [(1 : ℚ), 0] [1, 0])
    ∧ (((9/10 : ℚ) : ℝ) < calc_similarity [(3/5 : ℚ), 4/5] [3/5, 4/5])
    ∧ (calc_similarity [(0 : ℚ), 1] [1, 0] ≤ ((9/10 : ℚ) : ℝ))
    ∧ (calc_similarity [(0 : ℚ), 1] [3/5, 4/5] ≤ ((9/10 : ℚ) : ℝ))
    ∧ (calc_similarity [(1 : ℚ), 0] [3/5, 4/5] ≤ ((9/10 : ℚ) : ℝ))
    ∧ remove_duplicates ["f0", "f1", "f2", "f3", "f4"]
        [[(1 : ℚ), 0], [1, 0], [0, 1], [3/5, 4/5], [3/5, 4/5]] (9/10)
      = .ok ["f0", "f2", "f3"] := by
  have hu : sqNorm [(1 : ℚ), 0] = 1 := by norm_num [sqNorm, dot]
  have hw : sqNorm [(0 : ℚ), 1] = 1 := by norm_num [sqNorm, dot]
  have hx : sqNorm [(3/5 : ℚ), 4/5] = 1 := by norm_num [sqNorm, dot]
  have hvv : ((9/10 : ℚ) : ℝ) < calc_similarity [(1 : ℚ), 0] [1, 0] := by
    rw [calc_similarity_of_unit hu hu]
    have hd : dot [(1 : ℚ), 0] [1, 0] = 1 := by norm_num [dot]
    rw [hd]; norm_num
  have hxx : ((9/10 : ℚ) : ℝ) < calc_similarity [(3/5 : ℚ), 4/5] [3/5, 4/5] := by
    rw [calc_similarity_of_unit hx hx]
    have hd : dot [(3/5 : ℚ), 4/5] [3/5, 4/5] = 1 := by norm_num [dot]
    rw [hd]; norm_num
  have hwv : calc_similarity [(0 : ℚ), 1] [1, 0] ≤ ((9/10 : ℚ) : ℝ) := by
    rw [calc_similarity_of_unit hw hu]
    have hd : dot [(0 : ℚ), 1] [1, 0] = 0 := by norm_num [dot]
    rw [hd]; norm_num
  have hwx : calc_similarity [(0 : ℚ), 1] [3/5, 4/5] ≤ ((9/10 : ℚ) : ℝ) := by
    rw [calc_similarity_of_unit hw hx]
    have hd : dot [(0 : ℚ), 1] [3/5, 4/5] = 4/5 := by norm_num [dot]
    rw [hd]; norm_num
  have hvx : calc_similarity [(1 : ℚ), 0] [3/5, 4/5] ≤ ((9/10 : ℚ) : ℝ) := by
    rw [calc_similarity_of_unit hu hx]
    have hd : dot [(1 : ℚ), 0] [3/5, 4/5] = 3/5 := by norm_num [dot]
    rw [hd]; norm_num
  exact ⟨hvv, hxx, hwv, hwx, hvx,
    C1_dedup_scenario_amended "f0" "f1" "f2" "f3" "f4" _ _ _ hvv hxx hwv hwx hvx⟩

/-- `MultimodalService._ahash` after the external image decode: given the
flattened 8x8 grayscale pixel array (`np.array(img)` of the resized image),
compute the mean, threshold each pixel strictly against it (`arr > m`) and
pack the bits into an integer (`h = (h << 1) | bit` in row-major order).
The resize/grayscale decode itself is external (PIL) and is supplied as an
oracle producing the pixel list, or an exception. -/
def ahash (pixels : List ℚ) : ℕ :=
  pixels.foldl
    (fun h p => 2 * h + (if pixels.sum / (pixels.length : ℚ) < p then 1 else 0)) 0

/-- Hash of a frame path through the image-load oracle: `none` models a
raised exception while opening/decoding the image. -/
def okHash (load : String → Except String (List ℚ)) (p : String) : Option ℕ :=
  match load p with
  | .ok px => some (ahash px)
  | .error _ => none

/-- Loop of `MultimodalService._prefilter_by_hash`, with the `seen` hash set
made explicit: a frame that hashes to an already-seen value is dropped, a
frame whose load raises is kept (fail-open) without touching `seen`. -/
def prefilterGo (load : String → Except String (List ℚ)) :
    List String → List ℕ → List String
  | [], _ => []
  | p :: rest, seen =>
    match load p with
    | .ok px =>
      if ahash px ∈ seen then prefilterGo load rest seen
      else p :: prefilterGo load rest (ahash px :: seen)
    | .error _ => p :: prefilterGo load rest seen

/-- `MultimodalService._prefilter_by_hash(paths)`. -/
def prefilter_by_hash (load : String → Except String (List ℚ))
    (paths : List String) : List String :=
  prefilterGo load paths []

/-- Specification-side filter, following the claim's words: a frame whose
hash computation fails is retained; a frame that hashes successfully is kept
exactly when no earlier frame in the input hashed successfully to the same
value (first occurrence wins). -/
def prefilterSpecGo (load : String → Except String (List ℚ)) :
    List String → List String → List String
  | [], _ => []
  | p :: rest, pre =>
    match load p with
    | .error _ => p :: prefilterSpecGo load rest (pre ++ [p])
    | .ok px =>
      if pre.any (fun q => okHash load q = some (ahash px)) then
        prefilterSpecGo load rest (pre ++ [p])
      else p :: prefilterSpecGo load rest (pre ++ [p])

/-- Specification-side restatement of the prefilter over the whole input. -/
def prefilterSpec (load : String → Except String (List ℚ))
    (paths : List String) : List String :=
  prefilterSpecGo load paths []

lemma prefilterGo_sublist (load : String → Except String (List ℚ)) :
    ∀ (paths : List String) (seen : List ℕ),
      (prefilterGo load paths seen).Sublist paths := by
  intro paths
  induction paths with
  | nil => intro seen; simp [prefilterGo]
  | cons p rest ih =>
    intro seen
    cases hload : load p with
    | ok px =>
      simp only [prefilterGo, hload]
      split
      · exact (ih seen).cons p
      · exact (ih _).cons₂ p
    | error e =>
      simp only [prefilterGo, hload]
      exact (ih seen).cons₂ p

lemma prefilterGo_eq_spec (load : String → Except String (List ℚ)) :
    ∀ (paths pre : List String) (seen : List ℕ),
      (∀ h, h ∈ seen ↔ ∃ q ∈ pre, okHash load q = some h) →
      prefilterGo load paths seen = prefilterSpecGo load paths pre := by
  intro paths
  induction paths with
  | nil => intro pre seen _; rfl
  | cons p rest ih =>
    intro pre seen hinv
    cases hload : load p with
    | error e =>
      have hoknone : okHash load p = none := by simp [okHash, hload]
      simp only [prefilterGo, prefilterSpecGo, hload]
      congr 1
      apply ih
      intro h
      rw [hinv h]
      constructor
      · rintro ⟨q, hq, hqh⟩
        exact ⟨q, List.mem_append_left _ hq, hqh⟩
      · rintro ⟨q, hq, hqh⟩
        rcases List.mem_append.mp hq with hq' | hq'
        · exact ⟨q, hq', hqh⟩
        · have : q = p := by simpa using hq'
          subst this
          rw [hoknone] at hqh
          exact absurd hqh (by simp)
    | ok px =>
      have hoksome : okHash load p = some (ahash px) := by simp [okHash, hload]
      simp only [prefilterGo, prefilterSpecGo, hload]
      have hcond : (ahash px ∈ seen)
          ↔ pre.any (fun q => okHash load q = some (ahash px)) = true := by
        rw [hinv (ahash px), List.any_eq_true]
        constructor
        · rintro ⟨q, hq, hqh⟩
          exact ⟨q, hq, by simp [hqh]⟩
        · rintro ⟨q, hq, hqh⟩
          exact ⟨q, hq, by simpa using hqh⟩
      by_cases hmem : ahash px ∈ seen
      · rw [if_pos hmem, if_pos (hcond.mp hmem)]
        apply ih
        intro h
        rw [hinv h]
        constructor
        · rintro ⟨q, hq, hqh⟩
          exact ⟨q, List.mem_append_left _ hq, hqh⟩
        · rintro ⟨q, hq, hqh⟩
          rcases List.mem_append.mp hq with hq' | hq'
          · exact ⟨q, hq', hqh⟩
          · have : q = p := by simpa using hq'
            subst this
            rw [hoksome] at hqh
            have : h = ahash px := by simpa using hqh.symm
            subst this
            exact (hinv (ahash px)).mp hmem
      · rw [if_neg hmem, if_neg (fun hc => hmem (hcond.mpr hc))]
        congr 1
        apply ih
        intro h
        constructor
        · intro hh
          rcases List.mem_cons.mp hh with rfl | hh'
          · exact ⟨p, List.mem_append_right _ (List.mem_singleton_self p), hoksome⟩
          · obtain ⟨q, hq, hqh⟩ := (hinv h).mp hh'
            exact ⟨q, List.mem_append_left _ hq, hqh⟩
        · rintro ⟨q, hq, hqh⟩
          rcases List.mem_append.mp hq with hq' | hq'
          · exact List.mem_cons_of_mem _ ((hinv h).mpr ⟨q, hq', hqh⟩)
          · have : q = p := by simpa using hq'
            subst this
            rw [hoksome] at hqh
            have : h = ahash px := by simpa using hqh.symm
            subst this
            exact List.mem_cons_self _ _

/-- C9: the perceptual prefilter returns an order-preserving sublist in
which, among frames whose average-hash is computed successfully, exactly the
first frame of each distinct hash value is kept and every later frame with an
already-seen hash is dropped, while any frame whose hash computation raises
is retained (fail-open). -/
theorem C9_prefilter_first_occurrence (load : String → Except String (List ℚ))
    (paths : List String) :
    (prefilter_by_hash load paths).Sublist paths ∧
    prefilter_by_hash load paths = prefilterSpec load paths := by
  constructor
  · exact prefilterGo_sublist load paths []
  · exact prefilterGo_eq_spec load paths [] [] (by simp)

deriving instance DecidableEq for Except

/-- Python exception classes raised by `VideoProcessor.extract_frames`:
`FileNotFoundError`, `ValueError`, `RuntimeError`, each carrying its message. -/
inductive PyError where
  | fileNotFound (msg : String)
  | valueError (msg : String)
  | runtimeError (msg : String)
deriving DecidableEq

/-- Lexicographic code-point comparison of character lists: the order Python's
`sorted` uses on the strings returned by `os.listdir`. -/
def lexLe : List Char → List Char → Bool
  | [], _ => true
  | _ :: _, [] => false
  | a :: as, b :: bs =>
    if a.val.toNat < b.val.toNat then true
    else if b.val.toNat < a.val.toNat then false
    else lexLe as bs

/-- String order by code points (Python string `<=`). -/
def strLe (a b : String) : Prop := lexLe a.data b.data = true

instance : DecidableRel strLe :=
  fun a b => inferInstanceAs (Decidable (lexLe a.data b.data = true))

lemma lexLe_total : ∀ as bs : List Char, lexLe as bs = true ∨ lexLe bs as = true := by
  intro as
  induction as with
  | nil => intro bs; left; rfl
  | cons a as ih =>
    intro bs
    cases bs with
    | nil => right; rfl
    | cons b bs =>
      simp only [lexLe]
      rcases Nat.lt_trichotomy a.val.toNat b.val.toNat with h | h | h
      · left; rw [if_pos h]
      · have h1 : ¬ a.val.toNat < b.val.toNat := by omega
        have h2 : ¬ b.val.toNat < a.val.toNat := by omega
        rw [if_neg h1, if_neg h2, if_neg h2, if_neg h1]
        exact ih bs
      · right; rw [if_pos h]

lemma lexLe_trans : ∀ as bs cs : List Char,
    lexLe as bs = true → lexLe bs cs = true → lexLe as cs = true := by
  intro as
  induction as with
  | nil => intros; rfl
  | cons a as ih =>
    intro bs cs hab hbc
    cases bs with
    | nil => simp [lexLe] at hab
    | cons b bs =>
      cases cs with
      | nil => simp [lexLe] at hbc
      | cons c cs =>
        simp only [lexLe] at hab hbc ⊢
        split_ifs at hab hbc ⊢ <;>
          first
          | rfl
          | omega
          | exact ih bs cs hab hbc

instance : IsTotal String strLe := ⟨fun a b => lexLe_total a.data b.data⟩

instance : IsTrans String strLe := ⟨fun a b c => lexLe_trans a.data b.data c.data⟩

/-- Does a filename start with a given character sequence (over `String.data`,
matching Python `str.startswith`). -/
def strStarts (s pre : String) : Bool := pre.data.isPrefixOf s.data

/-- Does a filename end with a given character sequence (Python
`str.endswith`). -/
def strEnds (s suf : String) : Bool := suf.data.isSuffixOf s.data

/-- The filter of `VideoProcessor.extract_frames`:
`file.startswith("frame_") and file.endswith(".jpg")`. -/
def isFrameFile (f : String) : Bool := strStarts f "frame_" && strEnds f ".jpg"

/-- `os.path.join(output_dir, file)` in the plain directory/file case. -/
def joinPath (dir f : String) : String := dir ++ "/" ++ f

/-- `VideoProcessor.extract_frames(video_path, start_time, end_time, fps,
output_dir)`.  External effects are oracles: `pathExists` is
`os.path.exists(video_path)`, `toolRun` is the ffmpeg subprocess run (an
`error` carries the tool's stderr on a non-zero exit), `listing` is
`os.listdir(output_dir)` after the run.  The fps argument only shapes the
subprocess command line, which is inside the oracle. -/
def extract_frames (pathExists : Bool) (toolRun : Except String Unit)
    (listing : List String) (video_path : String) (start_time end_time : ℚ)
    (output_dir : String) : Except PyError (List String) :=
  if ¬ pathExists then
    .error (.fileNotFound ("Video file not found: " ++ video_path))
  else if end_time ≤ start_time then
    .error (.valueError "start_time must be less than end_time")
  else
    match toolRun with
    | .error stderr => .error (.runtimeError ("ffmpeg failed: " ++ stderr))
    | .ok _ =>
      let frame_files :=
        ((List.insertionSort strLe listing).filter isFrameFile).map (joinPath output_dir)
      if frame_files.isEmpty then .error (.runtimeError "No frames were extracted")
      else .ok frame_files

/-- C8: `extract_frames` raises a distinct error (not an empty list) when the
video is missing, when the tool exits non-zero (carrying its stderr), and when
the tool succeeds but produces no frame files; on normal return the result is
the non-empty sorted list of produced frame file paths. -/
theorem C8_extract_frames_errors (pathExists : Bool) (toolRun : Except String Unit)
    (listing : List String) (vp : String) (s e : ℚ) (od : String) :
    (pathExists = false →
      extract_frames pathExists toolRun listing vp s e od
        = .error (.fileNotFound ("Video file not found: " ++ vp)))
    ∧ (pathExists = true → s < e → ∀ stderr, toolRun = .error stderr →
      extract_frames pathExists toolRun listing vp s e od
        = .error (.runtimeError ("ffmpeg failed: " ++ stderr)))
    ∧ (pathExists = true → s < e → toolRun = .ok () →
      listing.filter isFrameFile = [] →
      extract_frames pathExists toolRun listing vp s e od
        = .error (.runtimeError "No frames were extracted"))
    ∧ (∀ l, extract_frames pathExists toolRun listing vp s e od = .ok l →
      l ≠ []
      ∧ l = ((List.insertionSort strLe listing).filter isFrameFile).map (joinPath od)
      ∧ ((List.insertionSort strLe listing).filter isFrameFile).Sorted strLe
      ∧ ∀ f ∈ (List.insertionSort strLe listing).filter isFrameFile,
          isFrameFile f = true) := by
  refine ⟨?_, ?_, ?_, ?_⟩
  · intro h
    subst h
    unfold extract_frames
    rw [if_pos (by simp)]
  · intro h hse stderr htool
    subst h
    subst htool
    unfold extract_frames
    rw [if_neg (by simp), if_neg (not_le.mpr hse)]
  · intro h hse htool hfil
    subst h
    subst htool
    unfold extract_frames
    rw [if_neg (by simp), if_neg (not_le.mpr hse)]
    have hperm : (List.insertionSort strLe listing).filter isFrameFile
        = ([] : List String) := by
      have hp : ((List.insertionSort strLe listing).filter isFrameFile).Perm
          (listing.filter isFrameFile) :=
        (List.perm_insertionSort strLe listing).filter isFrameFile
      rw [hfil] at hp
      exact hp.eq_nil
    simp [hperm]
  · intro l hl
    unfold extract_frames at hl
    split_ifs at hl with h1 h2
    cases htool : toolRun with
    | error stderr => rw [htool] at hl; exact absurd hl (by simp)
    | ok u =>
      rw [htool] at hl
      simp only at hl
      split_ifs at hl with h3
      have hl' : ((List.insertionSort strLe listing).filter isFrameFile).map (joinPath od)
          = l := by
        simpa using hl
      refine ⟨?_, hl'.symm, ?_, ?_⟩
      · intro hnil
        rw [hl'] at h3
        subst hnil
        simp at h3
      · exact List.Pairwise.filter _ (List.sorted_insertionSort strLe listing)
      · intro f hf
        exact List.of_mem_filter hf

theorem C8_extract_frames_errors_witness :
    extract_frames true (Except.ok ())
        ["frame_000002.jpg", "notes.txt", "frame_000001.jpg"] "v.mp4" 0 1 "out"
      = .ok ["out/frame_000001.jpg", "out/frame_000002.jpg"]
    ∧ (["out/frame_000001.jpg", "out/frame_000002.jpg"] ≠ ([] : List String)
      ∧ ["out/frame_000001.jpg", "out/frame_000002.jpg"]
          = ((List.insertionSort strLe
              ["frame_000002.jpg", "notes.txt", "frame_000001.jpg"]).filter
                isFrameFile).map (joinPath "out")
      ∧ ((List.insertionSort strLe
            ["frame_000002.jpg", "notes.txt", "frame_000001.jpg"]).filter
              isFrameFile).Sorted strLe
      ∧ ∀ f ∈ (List.insertionSort strLe
            ["frame_000002.jpg", "notes.txt", "frame_000001.jpg"]).filter
              isFrameFile, isFrameFile f = true) := by
  have hexp : extract_frames true (Except.ok ())
      ["frame_000002.jpg", "notes.txt", "frame_000001.jpg"] "v.mp4" 0 1 "out"
      = .ok ["out/frame_000001.jpg", "out/frame_000002.jpg"] := by
    unfold extract_frames
    rw [if_neg (by simp), if_neg (by norm_num)]
    decide
  exact ⟨hexp, (C8_extract_frames_errors true (Except.ok ())
    ["frame_000002.jpg", "notes.txt", "frame_000001.jpg"] "v.mp4" 0 1 "out").2.2.2
    ["out/frame_000001.jpg", "out/frame_000002.jpg"] hexp⟩

/-- Python `str.split(sep)` over character lists, keeping empty pieces
(`"".split(':') == ['']`). -/
def splitChar (c : Char) : List Char → List (List Char)
  | [] => [[]]
  | x :: xs =>
    if x = c then [] :: splitChar c xs
    else
      match splitChar c xs with
      | r :: rs => (x :: r) :: rs
      | [] => [[x]]

/-- Value of a decimal digit character, `none` for non-digits. -/
def digitVal (c : Char) : Option ℕ :=
  if 48 ≤ c.val.toNat ∧ c.val.toNat ≤ 57 then some (c.val.toNat - 48) else none

/-- Decimal reading of a digit string (empty allowed, caller guards). -/
def digitsCore (cs : List Char) : Option ℕ :=
  cs.foldl (fun acc c => acc.bind fun n => (digitVal c).map fun d => 10 * n + d)
    (some 0)

/-- Python `int(str)` on a trimmed token: optional sign, then a non-empty
run of decimal digits; anything else raises `ValueError` (`none`). -/
def pyInt : List Char → Option ℤ
  | '-' :: rest =>
    if rest.isEmpty then none else (digitsCore rest).map fun n => -(n : ℤ)
  | '+' :: rest =>
    if rest.isEmpty then none else (digitsCore rest).map fun n => (n : ℤ)
  | cs => if cs.isEmpty then none else (digitsCore cs).map fun n => (n : ℤ)

/-- `MultimodalService._parse_time`: split on `':'`, read hours and minutes,
split the third field on `'.'` for seconds and an optional milliseconds
field, and return `h*3600 + m*60 + s + ms/1000` seconds; any missing field
or failing `int()` raises `ValueError`. -/
def parse_time (t : String) : Except String ℚ :=
  match splitChar ':' t.data with
  | p0 :: p1 :: p2 :: _ =>
    match pyInt p0, pyInt p1 with
    | some h, some m =>
      match splitChar '.' p2 with
      | s0 :: srest =>
        match pyInt s0 with
        | some s =>
          match srest with
          | [] => .ok ((h : ℚ) * 3600 + (m : ℚ) * 60 + (s : ℚ))
          | ms0 :: _ =>
            match pyInt ms0 with
            | some ms =>
              .ok ((h : ℚ) * 3600 + (m : ℚ) * 60 + (s : ℚ) + (ms : ℚ) / 1000)
            | none => .error ("时间格式错误: " ++ t)
        | none => .error ("时间格式错误: " ++ t)
      | [] => .error ("时间格式错误: " ++ t)
    | _, _ => .error ("时间格式错误: " ++ t)
  | _ => .error ("时间格式错误: " ++ t)

/-- One input segment record `{start_time, end_time, summary}`. -/
structure Segment where
  start_time : String
  end_time : String
  summary : String
deriving DecidableEq

/-- One `SegmentResult` entry of the notes document. -/
structure SegmentRow where
  segment_id : ℕ
  start_time : String
  end_time : String
  duration_seconds : ℚ
  summary : String
  key_frames : List String
  frame_count : ℕ
deriving DecidableEq

/-- The `video_info` block of the notes document. -/
structure VideoInfo where
  source_video : String
  total_segments : ℕ
  generated_at : String
  processing_mode : String
deriving DecidableEq

/-- The `statistics` block of the notes document. -/
structure NotesStats where
  total_frames : ℕ
  segments_with_frames : ℕ
deriving DecidableEq

/-- The produced `multimodal_notes.json` document. -/
structure NotesDocument where
  video_info : VideoInfo
  segments : List SegmentRow
  statistics : NotesStats
deriving DecidableEq

/-- `os.path.basename` in the plain-path case: the part after the last `/`. -/
def basename (p : String) : String :=
  match (splitChar '/' p.data).getLast? with
  | some cs => String.mk cs
  | none => p

/-- `MultimodalService._process_segment((i, seg, ...))`.  The inner try/except
around `extract_segment_frames` is modelled by the oracle `ext` (an `error`
result stands for a raised exception there, degraded to `rel_paths = []`);
the `duration_seconds` computation parses both timestamps outside that
try/except, so a parse failure raises out of `_process_segment`.  `rel` is
`os.path.relpath(-, output_dir)`. -/
def process_segment (ext : ℕ → Segment → Except String (List String))
    (rel : String → String) (i : ℕ) (seg : Segment) : Except String SegmentRow :=
  let rel_paths := match ext i seg with
    | .ok ps => ps.map rel
    | .error _ => []
  match parse_time seg.end_time, parse_time seg.start_time with
  | .ok e, .ok s =>
    .ok { segment_id := i + 1, start_time := seg.start_time,
          end_time := seg.end_time, duration_seconds := e - s,
          summary := seg.summary, key_frames := rel_paths,
          frame_count := rel_paths.length }
  | .error msg, _ => .error msg
  | .ok _, .error msg => .error msg

/-- The degraded entry the orchestrator builds when a segment's future raised
(`generate_multimodal_notes`, the `except` branch of the result loop). -/
def degradedRow (i : ℕ) (seg : Segment) : SegmentRow :=
  { segment_id := i + 1, start_time := seg.start_time, end_time := seg.end_time,
    duration_seconds := 0, summary := seg.summary, key_frames := [],
    frame_count := 0 }

/-- `MultimodalService.generate_multimodal_notes`.  The thread pool submits
one `_process_segment` task per segment, collects each future's result (or a
degraded entry when the future raised) keyed by segment index, and reassembles
in ascending index order — every index is present in `results`, so the
reassembly is the index-ordered map below.  `proc` abstracts one segment's
whole processing; the concurrency affects only scheduling order, which the
index-keyed collection makes irrelevant to the document. -/
def generate_multimodal_notes (proc : ℕ → Segment → Except String SegmentRow)
    (video_path now : String) (workers : ℕ) (summaries : List Segment) :
    Except String NotesDocument :=
  if summaries.isEmpty then .error "摘要数据为空"
  else
    let notes := summaries.enum.map fun iseg =>
      match proc iseg.1 iseg.2 with
      | .ok row => row
      | .error _ => degradedRow iseg.1 iseg.2
    .ok { video_info :=
            { source_video := basename video_path,
              total_segments := notes.length, generated_at := now,
              processing_mode := "concurrent (workers=" ++ toString workers ++ ")" },
          segments := notes,
          statistics :=
            { total_frames := (notes.map SegmentRow.frame_count).sum,
              segments_with_frames :=
                (notes.filter (fun n => 0 < n.frame_count)).length } }

lemma process_segment_fields (ext : ℕ → Segment → Except String (List String))
    (rel : String → String) (i : ℕ) (seg : Segment) (r : SegmentRow)
    (h : process_segment ext rel i seg = .ok r) :
    r.segment_id = i + 1 ∧ r.start_time = seg.start_time
    ∧ r.end_time = seg.end_time ∧ r.summary = seg.summary
    ∧ r.frame_count = r.key_frames.length := by
  unfold process_segment at h
  cases he : parse_time seg.end_time with
  | error msg => rw [he] at h; exact absurd h (by simp)
  | ok e =>
    cases hs : parse_time seg.start_time with
    | error msg => rw [he, hs] at h; exact absurd h (by simp)
    | ok s =>
      rw [he, hs] at h
      simp only [Except.ok.injEq] at h
      subst h
      exact ⟨rfl, rfl, rfl, rfl, rfl⟩

/-- Placeholder segment for `getD` indexing in statements. -/
def segDefault : Segment := { start_time := "", end_time := "", summary := "" }

/-- Placeholder row for `getD` indexing in statements. -/
def rowDefault : SegmentRow :=
  { segment_id := 0, start_time := "", end_time := "", duration_seconds := 0,
    summary := "", key_frames := [], frame_count := 0 }

lemma generate_notes_getD (proc : ℕ → Segment → Except String SegmentRow)
    (summaries : List Segment) (i : ℕ) (hi : i < summaries.length) :
    (summaries.enum.map fun iseg =>
        match proc iseg.1 iseg.2 with
        | .ok row => row
        | .error _ => degradedRow iseg.1 iseg.2).getD i rowDefault
      = match proc i (summaries.getD i segDefault) with
        | .ok row => row
        | .error _ => degradedRow i (summaries.getD i segDefault) := by
  have h1 : i < (summaries.enum.map fun iseg =>
      match proc iseg.1 iseg.2 with
      | .ok row => row
      | .error _ => degradedRow iseg.1 iseg.2).length := by
    simpa [List.enum_length] using hi
  rw [List.getD_eq_getElem _ _ h1, List.getElem_map, List.getElem_enum,
    List.getD_eq_getElem _ _ hi]

/-- C4 (amended): for every NON-EMPTY input list of N segments,
`generate_multimodal_notes` produces a document with exactly N entries in
ascending segment-index order, each preserving the segment's original
start_time, end_time and summary; an entry whose `_process_segment` raised has
`key_frames = []` and `frame_count = 0`, and every other entry is exactly its
own segment's result.  (On an empty input the function raises `ValueError`
instead of producing a document — see the counterexample.) -/
theorem C4_segment_isolation_amended
    (ext : ℕ → Segment → Except String (List String)) (rel : String → String)
    (vp now : String) (workers : ℕ) (summaries : List Segment)
    (hne : summaries ≠ []) :
    ∃ doc, generate_multimodal_notes (process_segment ext rel) vp now workers
        summaries = .ok doc
      ∧ doc.segments.length = summaries.length
      ∧ ∀ i, i < summaries.length →
          (doc.segments.getD i rowDefault).segment_id = i + 1
          ∧ (doc.segments.getD i rowDefault).start_time
              = (summaries.getD i segDefault).start_time
          ∧ (doc.segments.getD i rowDefault).end_time
              = (summaries.getD i segDefault).end_time
          ∧ (doc.segments.getD i rowDefault).summary
              = (summaries.getD i segDefault).summary
          ∧ (∀ msg,
              process_segment ext rel i (summaries.getD i segDefault) = .error msg →
              (doc.segments.getD i rowDefault).key_frames = []
              ∧ (doc.segments.getD i rowDefault).frame_count = 0)
          ∧ (∀ r,
              process_segment ext rel i (summaries.getD i segDefault) = .ok r →
              doc.segments.getD i rowDefault = r) := by
  unfold generate_multimodal_notes
  rw [if_neg (by simpa [List.isEmpty_iff] using hne)]
  refine ⟨_, rfl, by simp [List.enum_length], ?_⟩
  intro i hi
  rw [generate_notes_getD (process_segment ext rel) summaries i hi]
  cases hproc : process_segment ext rel i (summaries.getD i segDefault) with
  | ok r =>
    obtain ⟨hid, hst, hen, hsu, _⟩ := process_segment_fields _ _ _ _ _ hproc
    simp only
    refine ⟨hid, hst, hen, hsu, ?_, ?_⟩
    · intro msg hmsg
      exact absurd hmsg (by simp)
    · intro r' hr'
      simpa using hr'
  | error msg =>
    simp only
    refine ⟨rfl, rfl, rfl, rfl, fun _ _ => ⟨rfl, rfl⟩, ?_⟩
    intro r' hr'
    exact absurd hr' (by simp)

/-- C4 as stated is false on the empty segment list: the claim quantifies
over every input list, but `generate_multimodal_notes` raises `ValueError`
("摘要数据为空") on an empty summaries list instead of producing a document
with 0 entries. -/
theorem C4_empty_counterexample :
    generate_multimodal_notes (process_segment (fun _ _ => .ok ["f"]) id)
      "v.mp4" "t0" 3 [] = .error "摘要数据为空" := rfl

theorem C4_segment_isolation_witness :
    ([⟨"a", "b", "s"⟩] : List Segment) ≠ []
    ∧ ∃ doc, generate_multimodal_notes
        (process_segment (fun _ _ => .error "boom") id) "v.mp4" "t0" 3
        [⟨"a", "b", "s"⟩] = .ok doc
      ∧ doc.segments.length = ([⟨"a", "b", "s"⟩] : List Segment).length
      ∧ ∀ i, i < ([⟨"a", "b", "s"⟩] : List Segment).length →
          (doc.segments.getD i rowDefault).segment_id = i + 1
          ∧ (doc.segments.getD i rowDefault).start_time
              = (([⟨"a", "b", "s"⟩] : List Segment).getD i segDefault).start_time
          ∧ (doc.segments.getD i rowDefault).end_time
              = (([⟨"a", "b", "s"⟩] : List Segment).getD i segDefault).end_time
          ∧ (doc.segments.getD i rowDefault).summary
              = (([⟨"a", "b", "s"⟩] : List Segment).getD i segDefault).summary
          ∧ (∀ msg, process_segment (fun _ _ => .error "boom") id i
                (([⟨"a", "b", "s"⟩] : List Segment).getD i segDefault)
                = .error msg →
              (doc.segments.getD i rowDefault).key_frames = []
              ∧ (doc.segments.getD i rowDefault).frame_count = 0)
          ∧ (∀ r, process_segment (fun _ _ => .error "boom") id i
                (([⟨"a", "b", "s"⟩] : List Segment).getD i segDefault) = .ok r →
              doc.segments.getD i rowDefault = r) :=
  ⟨List.cons_ne_nil _ _,
    C4_segment_isolation_amended (fun _ _ => .error "boom") id "v.mp4" "t0" 3
      [⟨"a", "b", "s"⟩] (List.cons_ne_nil _ _)⟩

/-- C10: in every document produced by `generate_multimodal_notes`, each
entry's `frame_count` equals the length of its `key_frames`,
`statistics.total_frames` is the sum of the `frame_count`s,
`statistics.segments_with_frames` counts the entries with positive
`frame_count`, and `video_info.total_segments` equals the number of entries. -/
theorem C10_statistics_consistent
    (ext : ℕ → Segment → Except String (List String)) (rel : String → String)
    (vp now : String) (workers : ℕ) (summaries : List Segment)
    (doc : NotesDocument)
    (h : generate_multimodal_notes (process_segment ext rel) vp now workers
      summaries = .ok doc) :
    (∀ row ∈ doc.segments, row.frame_count = row.key_frames.length)
    ∧ doc.statistics.total_frames = (doc.segments.map SegmentRow.frame_count).sum
    ∧ doc.statistics.segments_with_frames
        = (doc.segments.filter (fun n => 0 < n.frame_count)).length
    ∧ doc.video_info.total_segments = doc.segments.length := by
  unfold generate_multimodal_notes at h
  split_ifs at h with he
  simp only [Except.ok.injEq] at h
  subst h
  refine ⟨?_, rfl, rfl, rfl⟩
  intro row hrow
  simp only [List.mem_map] at hrow
  obtain ⟨iseg, _, hrow⟩ := hrow
  subst hrow
  cases hproc : process_segment ext rel iseg.1 iseg.2 with
  | ok r =>
    simp only [hproc]
    exact (process_segment_fields _ _ _ _ _ hproc).2.2.2.2
  | error msg => simp [hproc, degradedRow]

theorem C10_statistics_consistent_witness :
    ∃ doc, generate_multimodal_notes
        (process_segment (fun _ _ => .error "boom") id) "v.mp4" "t0" 3
        [⟨"a", "b", "s"⟩] = .ok doc
      ∧ ((∀ row ∈ doc.segments, row.frame_count = row.key_frames.length)
        ∧ doc.statistics.total_frames
            = (doc.segments.map SegmentRow.frame_count).sum
        ∧ doc.statistics.segments_with_frames
            = (doc.segments.filter (fun n => 0 < n.frame_count)).length
        ∧ doc.video_info.total_segments = doc.segments.length) := by
  have hgen : ∃ doc, generate_multimodal_notes
      (process_segment (fun _ _ => .error "boom") id) "v.mp4" "t0" 3
      [⟨"a", "b", "s"⟩] = .ok doc := by
    unfold generate_multimodal_notes
    rw [if_neg (by simp)]
    exact ⟨_, rfl⟩
  obtain ⟨doc, hdoc⟩ := hgen
  exact ⟨doc, hdoc,
    C10_statistics_consistent (fun _ _ => .error "boom") id "v.mp4" "t0" 3
      [⟨"a", "b", "s"⟩] doc hdoc⟩

/-- The per-task embedding cache `self._emb_cache`, as a lookup function. -/
abbrev Cache : Type := String → Option (List ℚ)

/-- One dictionary write `self._emb_cache[p] = v`. -/
def cacheInsert (c : Cache) (p : String) (v : List ℚ) : Cache :=
  fun q => if q = p then some v else c q

/-- The batching `paths[i:i+bs]` of `generate_embeddings`' loop, carried out
with a capacity countdown (`k` slots left in the open batch, accumulated in
reverse in `acc`).  Faithful for `bs ≥ 1`; every caller passes the configured
batch size, which defaults to 10 (`bs=batch_size or self.batch_sz`). -/
def chunksGo (bs : ℕ) : List String → ℕ → List String → List (List String)
  | [], _, acc => if acc.isEmpty then [] else [acc.reverse]
  | x :: xs, k, acc =>
    if k ≤ 1 then (x :: acc).reverse :: chunksGo bs xs bs []
    else chunksGo bs xs (k - 1) (x :: acc)

/-- Split a path list into batches of size `bs`. -/
def chunksOf (bs : ℕ) (l : List String) : List (List String) := chunksGo bs l bs []

/-- Accumulator of `generate_embeddings`: the `embeds` and `success` lists
plus the mutable cache. -/
structure GenAcc where
  embeds : List (List ℚ)
  success : List String
  cache : Cache

/-- One iteration of `generate_embeddings`' batch loop: cached paths are
appended to `embeds`/`success` immediately; unreadable paths (a raised
exception in `_to_base64`, modelled by the `readB64` oracle) are skipped;
the remaining paths are sent to the API in one call (`api` oracle, whose
`error` models a raised/failed call losing the whole batch), and on success
`zip(need, emb)` writes the cache and appends the new vectors. -/
def processBatch (readB64 : String → Except String String)
    (api : List String → Except String (List (List ℚ)))
    (st : GenAcc) (batch : List String) : GenAcc :=
  let scan := batch.foldl
    (fun (acc : List (List ℚ) × List String × List String × List String) p =>
      match st.cache p with
      | some e => (acc.1 ++ [e], acc.2.1 ++ [p], acc.2.2.1, acc.2.2.2)
      | none =>
        match readB64 p with
        | .ok b => (acc.1, acc.2.1, acc.2.2.1 ++ [b], acc.2.2.2 ++ [p])
        | .error _ => acc)
    ([], [], [], [])
  if scan.2.2.1.isEmpty then
    { embeds := st.embeds ++ scan.1, success := st.success ++ scan.2.1,
      cache := st.cache }
  else
    match api scan.2.2.1 with
    | .ok emb =>
      let pairs := scan.2.2.2.zip emb
      { embeds := st.embeds ++ scan.1 ++ pairs.map Prod.snd,
        success := st.success ++ scan.2.1 ++ pairs.map Prod.fst,
        cache := pairs.foldl (fun c pe => cacheInsert c pe.1 pe.2) st.cache }
    | .error _ =>
      { embeds := st.embeds ++ scan.1, success := st.success ++ scan.2.1,
        cache := st.cache }

/-- `MultimodalService.generate_embeddings(paths)`: hash-prefilter the paths,
then process them in batches of `bs`, returning the collected vectors, the
successfully embedded paths, and the updated cache. -/
def generate_embeddings (load : String → Except String (List ℚ))
    (readB64 : String → Except String String)
    (api : List String → Except String (List (List ℚ)))
    (bs : ℕ) (cache : Cache) (paths : List String) :
    List (List ℚ) × List String × Cache :=
  let fin := (chunksOf bs (prefilter_by_hash load paths)).foldl
    (processBatch readB64 api) { embeds := [], success := [], cache := cache }
  (fin.embeds, fin.success, fin.cache)

/-- Python falsiness of `text_summary.strip()`: the string is empty or all
whitespace. -/
def isBlank (s : String) : Bool := s.data.all (fun c => c.isWhitespace)

/-- The vector-gathering loop of `align_frames_with_text`: a path found in
the supplied `embeds` map, or else in the cache, contributes its vector to
`img_vecs`/`valid_paths`; a path absent from both goes to `missing`. -/
def gatherStep (embedsM cache : String → Option (List ℚ))
    (acc : List (List ℚ) × List String × List String) (p : String) :
    List (List ℚ) × List String × List String :=
  match embedsM p with
  | some v => (acc.1 ++ [v], acc.2.1 ++ [p], acc.2.2)
  | none =>
    match cache p with
    | some v => (acc.1 ++ [v], acc.2.1 ++ [p], acc.2.2)
    | none => (acc.1, acc.2.1, acc.2.2 ++ [p])

/-- `MultimodalService.align_frames_with_text(frame_paths, text_summary,
max_frames, embeds)`.  `textEmb` is the text-embedding API call for the
summary (an `error` models a raised exception, handled by the surrounding
try/except with the positional fallback); `embedsM` is the optional `embeds`
argument as a lookup (absent key or `None` value both give `none`); missing
vectors are computed on demand through `generate_embeddings` and appended
after the map/cache-resolved ones, with `zip(missing, new_vecs)` writing the
cache; the candidates are then ranked by cosine similarity to the text
vector with Python's stable descending sort and the top `max_frames` are
returned.  The function never raises: every failure path degrades to
`frame_paths[:max_frames]`. -/
def align_frames_with_text (load : String → Except String (List ℚ))
    (readB64 : String → Except String String)
    (api : List String → Except String (List (List ℚ)))
    (bs : ℕ) (textEmb : Except String (List ℚ)) (cache : Cache)
    (frame_paths : List String) (text_summary : String) (max_frames : ℕ)
    (embedsM : String → Option (List ℚ)) : List String × Cache :=
  if frame_paths.isEmpty || isBlank text_summary then
    (frame_paths.take max_frames, cache)
  else
    match textEmb with
    | .error _ => (frame_paths.take max_frames, cache)
    | .ok t =>
      let gath := frame_paths.foldl (gatherStep embedsM cache) ([], [], [])
      let gen := if gath.2.2.isEmpty then ([], [], cache)
        else generate_embeddings load readB64 api bs cache gath.2.2
      let pairs := gath.2.2.zip gen.1
      let cache2 := pairs.foldl (fun c pe => cacheInsert c pe.1 pe.2) gen.2.2
      let img_vecs := gath.1 ++ pairs.map Prod.snd
      let valid2 := gath.2.1 ++ pairs.map Prod.fst
      if img_vecs.isEmpty then (frame_paths.take max_frames, cache2)
      else
        (((List.insertionSort simOrd
            ((img_vecs.map (fun v => simPair t v)).zip valid2)).map
              Prod.snd).take max_frames, cache2)

/-- The resolved vector of a frame path: from the supplied map when present,
else from the cache (`[]` if truly absent, never used under the all-present
hypothesis). -/
def vecOfD (embedsM cache : String → Option (List ℚ)) (p : String) : List ℚ :=
  match embedsM p with
  | some v => v
  | none => (cache p).getD []

/-- Specification-side alignment, following the claim's words: compute each
frame's cosine similarity to the text vector (the exact comparison `pairGE`
on `simPair`s equals the cosine ordering, `pairGE_simPair_iff`), stable-sort
descending with ties in original input order, and take the top `k`. -/
def specAlign (t : List ℚ) (vec : String → List ℚ) (paths : List String)
    (k : ℕ) : List String :=
  ((List.insertionSort simOrd
      (paths.map (fun p => (simPair t (vec p), p)))).map Prod.snd).take k

lemma zip_map_self {α β : Type} (f : α → β) (l : List α) :
    (l.map f).zip l = l.map (fun x => (f x, x)) := by
  induction l with
  | nil => rfl
  | cons a l ih => simp [ih]

lemma gather_all_present (embedsM cache : String → Option (List ℚ)) :
    ∀ (paths : List String),
      (∀ p ∈ paths, (embedsM p).isSome ∨ (cache p).isSome) →
      ∀ acc : List (List ℚ) × List String × List String,
        paths.foldl (gatherStep embedsM cache) acc
          = (acc.1 ++ paths.map (vecOfD embedsM cache), acc.2.1 ++ paths, acc.2.2) := by
  intro paths
  induction paths with
  | nil => intro _ acc; simp
  | cons p rest ih =>
    intro hall acc
    have hp := hall p (List.mem_cons_self _ _)
    have hrest : ∀ q ∈ rest, (embedsM q).isSome ∨ (cache q).isSome :=
      fun q hq => hall q (List.mem_cons_of_mem _ hq)
    rw [List.foldl_cons]
    cases hm : embedsM p with
    | some v =>
      have hstep : gatherStep embedsM cache acc p
          = (acc.1 ++ [v], acc.2.1 ++ [p], acc.2.2) := by
        unfold gatherStep
        rw [hm]
      rw [hstep, ih hrest]
      have hvec : vecOfD embedsM cache p = v := by
        unfold vecOfD
        rw [hm]
      simp [hvec]
    | none =>
      cases hc : cache p with
      | some v =>
        have hstep : gatherStep embedsM cache acc p
            = (acc.1 ++ [v], acc.2.1 ++ [p], acc.2.2) := by
          unfold gatherStep
          rw [hm, hc]
        rw [hstep, ih hrest]
        have hvec : vecOfD embedsM cache p = v := by
          simp [vecOfD, hm, hc]
        simp [hvec]
      | none =>
        rw [hm] at hp
        rw [hc] at hp
        simp at hp

lemma gather_all_absent (embedsM cache : String → Option (List ℚ)) :
    ∀ (paths : List String),
      (∀ p ∈ paths, embedsM p = none ∧ cache p = none) →
      ∀ acc : List (List ℚ) × List String × List String,
        paths.foldl (gatherStep embedsM cache) acc
          = (acc.1, acc.2.1, acc.2.2 ++ paths) := by
  intro paths
  induction paths with
  | nil => intro _ acc; simp
  | cons p rest ih =>
    intro hall acc
    have hp := hall p (List.mem_cons_self _ _)
    have hrest : ∀ q ∈ rest, embedsM q = none ∧ cache q = none :=
      fun q hq => hall q (List.mem_cons_of_mem _ hq)
    rw [List.foldl_cons]
    have hstep : gatherStep embedsM cache acc p
        = (acc.1, acc.2.1, acc.2.2 ++ [p]) := by
      unfold gatherStep
      rw [hp.1, hp.2]
    rw [hstep, ih hrest]
    simp

/-- When every frame's vector is already in the supplied map or the cache,
`align_frames_with_text` is exactly the specification-side stable ranking of
the input paths, and the cache is untouched. -/
lemma align_all_present (load : String → Except String (List ℚ))
    (readB64 : String → Except String String)
    (api : List String → Except String (List (List ℚ)))
    (bs : ℕ) (t : List ℚ) (cache : Cache)
    (frame_paths : List String) (text_summary : String) (k : ℕ)
    (embedsM : String → Option (List ℚ))
    (hne : frame_paths ≠ [])
    (hblank : isBlank text_summary = false)
    (hall : ∀ p ∈ frame_paths, (embedsM p).isSome ∨ (cache p).isSome) :
    align_frames_with_text load readB64 api bs (.ok t) cache frame_paths
        text_summary k embedsM
      = (specAlign t (vecOfD embedsM cache) frame_paths k, cache) := by
  unfold align_frames_with_text
  have hcond : (frame_paths.isEmpty || isBlank text_summary) = false := by
    rw [hblank, List.isEmpty_eq_false_iff_exists_mem.mpr]
    · rfl
    · cases frame_paths with
      | nil => exact absurd rfl hne
      | cons a l => exact ⟨a, List.mem_cons_self _ _⟩
  rw [if_neg (by simp [hcond])]
  simp only
  rw [gather_all_present embedsM cache frame_paths hall ([], [], [])]
  simp only [List.nil_append, List.isEmpty_nil, if_true, List.zip_nil_right,
    List.foldl_nil, List.map_nil, List.append_nil]
  rw [if_neg (by
    simp only [List.isEmpty_eq_true, List.map_eq_nil_iff]
    exact hne)]
  rw [List.map_map, zip_map_self]
  rfl

/-- C3 (amended): when the text embedding succeeds and every frame path's
vector is present in the supplied map or the cache, `align_frames_with_text`
computes each frame's cosine similarity to the text vector, sorts the frames
by similarity in descending order with ties broken by original input order
(the stable descending sort `specAlign`), and returns the top `max_k`; the
returned list has length `min max_k (number of input frames)` and is pairwise
descending in cosine similarity.  The claim as stated also covers vectors
computed on demand, where the tie-break order is not the input order — see
the counterexample. -/
theorem C3_align_amended (load : String → Except String (List ℚ))
    (readB64 : String → Except String String)
    (api : List String → Except String (List (List ℚ)))
    (bs : ℕ) (t : List ℚ) (cache : Cache)
    (frame_paths : List String) (text_summary : String) (k : ℕ)
    (embedsM : String → Option (List ℚ))
    (hne : frame_paths ≠ [])
    (hblank : isBlank text_summary = false)
    (hall : ∀ p ∈ frame_paths, (embedsM p).isSome ∨ (cache p).isSome) :
    (align_frames_with_text load readB64 api bs (.ok t) cache frame_paths
        text_summary k embedsM).1
      = specAlign t (vecOfD embedsM cache) frame_paths k
    ∧ (align_frames_with_text load readB64 api bs (.ok t) cache frame_paths
        text_summary k embedsM).1.length = min k frame_paths.length
    ∧ List.Pairwise (fun p q =>
        calc_similarity t (vecOfD embedsM cache q)
          ≤ calc_similarity t (vecOfD embedsM cache p))
      (align_frames_with_text load readB64 api bs (.ok t) cache frame_paths
        text_summary k embedsM).1 := by
  rw [align_all_present load readB64 api bs t cache frame_paths text_summary k
    embedsM hne hblank hall]
  refine ⟨rfl, ?_, ?_⟩
  · unfold specAlign
    rw [List.length_take, List.length_map, List.length_insertionSort,
      List.length_map]
  · unfold specAlign
    have hsorted : List.Pairwise simOrd (List.insertionSort simOrd
        (frame_paths.map (fun p => (simPair t (vecOfD embedsM cache p), p)))) :=
      List.sorted_insertionSort simOrd _
    have hshape : ∀ x ∈ List.insertionSort simOrd
        (frame_paths.map (fun p => (simPair t (vecOfD embedsM cache p), p))),
        x.1 = simPair t (vecOfD embedsM cache x.2) := by
      intro x hx
      rw [List.mem_insertionSort] at hx
      obtain ⟨p, _, rfl⟩ := List.mem_map.mp hx
      rfl
    have hpw : List.Pairwise (fun a b : (ℚ × ℚ) × String =>
        calc_similarity t (vecOfD embedsM cache b.2)
          ≤ calc_similarity t (vecOfD embedsM cache a.2))
        (List.insertionSort simOrd
          (frame_paths.map fun p => (simPair t (vecOfD embedsM cache p), p))) := by
      refine List.Pairwise.imp_of_mem ?_ hsorted
      intro a b ha hb hab
      have h1 := hshape a ha
      have h2 := hshape b hb
      unfold simOrd at hab
      rw [h1, h2] at hab
      exact (pairGE_simPair_iff t _ _).mp hab
    have hpw2 : List.Pairwise (fun p q : String =>
        calc_similarity t (vecOfD embedsM cache q)
          ≤ calc_similarity t (vecOfD embedsM cache p))
        ((List.insertionSort simOrd
          (frame_paths.map fun p => (simPair t (vecOfD embedsM cache p), p))).map
            Prod.snd) := by
      rw [List.pairwise_map]
      exact hpw
    exact hpw2.sublist (List.take_sublist _ _)

/-- C3 as stated is false when a vector is computed on demand: with frames
`["a", "b"]` where the supplied map holds only `b`'s vector and `a`'s equal
vector is computed on demand through the API oracle, both frames tie at
cosine similarity 1 to the text vector, so the claimed original-order
tie-break predicts `["a", "b"]` (which is `specAlign` on each frame's own
vector); the code instead appends on-demand-computed frames after the
map/cache-resolved ones before sorting and returns `["b", "a"]`. -/
theorem C3_align_counterexample :
    (align_frames_with_text (fun _ => Except.ok [(1 : ℚ)])
        (fun _ => Except.ok "d") (fun _ => Except.ok [[(1 : ℚ)]]) 10
        (.ok [(1 : ℚ)]) (fun _ => none) ["a", "b"] "t" 3
        (fun p => if p = "b" then some [(1 : ℚ)] else none)).1 = ["b", "a"]
    ∧ specAlign [(1 : ℚ)] (fun _ => [(1 : ℚ)]) ["a", "b"] 3 = ["a", "b"]
    ∧ (["b", "a"] : List String) ≠ ["a", "b"] := by
  refine ⟨?_, ?_, by decide⟩
  · simp +decide [align_frames_with_text, gatherStep, generate_embeddings,
      prefilter_by_hash, prefilterGo, ahash, chunksOf, chunksGo, processBatch,
      cacheInsert, isBlank, simPair, sqNorm, dot, simOrd, pairGE, posClamp,
      List.insertionSort, List.orderedInsert]
  · simp +decide [specAlign, simPair, sqNorm, dot, simOrd, pairGE, posClamp,
      List.insertionSort, List.orderedInsert]

theorem C3_align_witness :
    (["a", "b"] : List String) ≠ []
    ∧ isBlank "t" = false
    ∧ (∀ p ∈ (["a", "b"] : List String),
        ((fun q => if q = "a" then some [(1 : ℚ), 0]
          else if q = "b" then some [(0 : ℚ), 1] else none) p).isSome
        ∨ ((fun _ => none : Cache) p).isSome)
    ∧ ((align_frames_with_text (fun _ => Except.error "e")
          (fun _ => Except.error "e") (fun _ => Except.error "e") 10
          (.ok [(1 : ℚ), 0]) (fun _ => none) ["a", "b"] "t" 3
          (fun q => if q = "a" then some [(1 : ℚ), 0]
            else if q = "b" then some [(0 : ℚ), 1] else none)).1
        = specAlign [(1 : ℚ), 0]
            (vecOfD (fun q => if q = "a" then some [(1 : ℚ), 0]
              else if q = "b" then some [(0 : ℚ), 1] else none) (fun _ => none))
            ["a", "b"] 3
      ∧ (align_frames_with_text (fun _ => Except.error "e")
          (fun _ => Except.error "e") (fun _ => Except.error "e") 10
          (.ok [(1 : ℚ), 0]) (fun _ => none) ["a", "b"] "t" 3
          (fun q => if q = "a" then some [(1 : ℚ), 0]
            else if q = "b" then some [(0 : ℚ), 1] else none)).1.length
          = min 3 (["a", "b"] : List String).length
      ∧ List.Pairwise (fun p q =>
          calc_similarity [(1 : ℚ), 0]
            (vecOfD (fun q' => if q' = "a" then some [(1 : ℚ), 0]
              else if q' = "b" then some [(0 : ℚ), 1] else none)
              (fun _ => none) q)
          ≤ calc_similarity [(1 : ℚ), 0]
            (vecOfD (fun q' => if q' = "a" then some [(1 : ℚ), 0]
              else if q' = "b" then some [(0 : ℚ), 1] else none)
              (fun _ => none) p))
        (align_frames_with_text (fun _ => Except.error "e")
          (fun _ => Except.error "e") (fun _ => Except.error "e") 10
          (.ok [(1 : ℚ), 0]) (fun _ => none) ["a", "b"] "t" 3
          (fun q => if q = "a" then some [(1 : ℚ), 0]
            else if q = "b" then some [(0 : ℚ), 1] else none)).1) :=
  ⟨List.cons_ne_nil _ _, by decide, by decide,
    C3_align_amended (fun _ => Except.error "e") (fun _ => Except.error "e")
      (fun _ => Except.error "e") 10 [(1 : ℚ), 0] (fun _ => none) ["a", "b"]
      "t" 3
      (fun q => if q = "a" then some [(1 : ℚ), 0]
        else if q = "b" then some [(0 : ℚ), 1] else none)
      (List.cons_ne_nil _ _) (by decide) (by decide)⟩

/-- C7: for every list of frame paths and every `max_k`, when the summary is
blank, or the text embedding raises, or no frame vectors are available (none
in the map or cache and the on-demand generation returns no vectors),
`align_frames_with_text` returns exactly the first `max_k` input paths in
unmodified order.  The model is total: every failure branch of the source is
caught by its try/except and degrades to this same fallback. -/
theorem C7_align_fallback (load : String → Except String (List ℚ))
    (readB64 : String → Except String String)
    (api : List String → Except String (List (List ℚ)))
    (bs : ℕ) (textEmb : Except String (List ℚ)) (cache : Cache)
    (frame_paths : List String) (text_summary : String) (k : ℕ)
    (embedsM : String → Option (List ℚ))
    (h : isBlank text_summary = true
      ∨ (∃ msg, textEmb = Except.error msg)
      ∨ ((∀ p ∈ frame_paths, embedsM p = none ∧ cache p = none)
        ∧ (generate_embeddings load readB64 api bs cache frame_paths).1 = [])) :
    (align_frames_with_text load readB64 api bs textEmb cache frame_paths
        text_summary k embedsM).1 = frame_paths.take k := by
  unfold align_frames_with_text
  rcases h with hb | ⟨msg, htext⟩ | ⟨habsent, hgen⟩
  · rw [if_pos (by simp [hb])]
  · by_cases hcond : (frame_paths.isEmpty || isBlank text_summary) = true
    · rw [if_pos hcond]
    · rw [if_neg hcond, htext]
  · by_cases hcond : (frame_paths.isEmpty || isBlank text_summary) = true
    · rw [if_pos hcond]
    · rw [if_neg hcond]
      have hne2 : frame_paths.isEmpty = false := by
        cases hie : frame_paths.isEmpty
        · rfl
        · exact absurd (by simp [hie]) hcond
      cases htext : textEmb with
      | error m => rfl
      | ok t =>
        rw [gather_all_absent embedsM cache frame_paths habsent ([], [], [])]
        simp only [List.nil_append, hne2, Bool.false_eq_true, if_false, hgen,
          List.zip_nil_right, List.map_nil, List.append_nil, List.foldl_nil,
          List.isEmpty_nil, if_true]

theorem C7_align_fallback_witness :
    (isBlank " " = true
      ∨ (∃ msg, (Except.ok [(1 : ℚ)] : Except String (List ℚ))
          = Except.error msg)
      ∨ ((∀ p ∈ (["a", "b"] : List String),
            (fun _ => none : String → Option (List ℚ)) p = none
            ∧ (fun _ => none : Cache) p = none)
        ∧ (generate_embeddings (fun _ => Except.ok [(1 : ℚ)])
            (fun _ => Except.ok "d") (fun _ => Except.error "api down") 10
            (fun _ => none) ["a", "b"]).1 = []))
    ∧ (align_frames_with_text (fun _ => Except.ok [(1 : ℚ)])
        (fun _ => Except.ok "d") (fun _ => Except.error "api down") 10
        (.ok [(1 : ℚ)]) (fun _ => none) ["a", "b"] " " 2
        (fun _ => none)).1 = (["a", "b"] : List String).take 2 :=
  ⟨Or.inl (by decide),
    C7_align_fallback (fun _ => Except.ok [(1 : ℚ)]) (fun _ => Except.ok "d")
      (fun _ => Except.error "api down") 10 (.ok [(1 : ℚ)]) (fun _ => none)
      ["a", "b"] " " 2 (fun _ => none) (Or.inl (by decide))⟩
